import Mathlib

/-!
Verification of the HTTPU exchange engine (`httpu/httpu.go`, `HTTPUClient.Do`).

The method `Do` encodes a minimal HTTP/1.1 request into a buffer, resolves
the destination address, sets an absolute deadline on the UDP endpoint,
sends the buffer once per round per multicast-capable interface with a 5ms
pause after each round, and then collects datagrams until the deadline,
parsing each as an HTTP response.

The embedding below models the fallible system calls by an environment of
oracles (interface list, per-attempt send outcomes, the ordered sequence of
read outcomes, the response parser) and makes `Do` a pure function from
that environment to a result together with a trace of observable events in
program order.
-/

namespace Httpu

/-- An outbound HTTPU request: method, request-target, header entries (in
order), and destination host string.  These are the fields of
`http.Request` that `HTTPUClient.Do` reads. -/
structure Request where
  method : String
  target : String
  headers : List (String × String)
  host : String

/-- Modelled from the spec: serialization performed by the standard library
routine `http.Header.Write` (code outside this repository) — one
`Name: value\r\n` line appended to the buffer per header entry. -/
def headerWrite (buf : String) (hs : List (String × String)) : String :=
  hs.foldl (fun b h => b ++ (h.1 ++ ": " ++ h.2 ++ "\r\n")) buf

/-- The request bytes built by `Do` (httpu.go lines 54–67): a request line
whose method defaults to `GET` when empty, then the headers, then a final
CRLF, accumulated into an initially empty buffer. -/
def encodeRequest (req : Request) : String :=
  let method := if req.method = "" then "GET" else req.method
  let buf := "" ++ (method ++ " " ++ req.target ++ " HTTP/1.1\r\n")
  let buf := headerWrite buf req.headers
  buf ++ "\r\n"

/-- Direct concatenation of the per-entry header lines, used to state the
closed form of the encoding. -/
def headerLines : List (String × String) → String
  | [] => ""
  | h :: rest => h.1 ++ ": " ++ h.2 ++ "\r\n" ++ headerLines rest

theorem headerWrite_eq (hs : List (String × String)) :
    ∀ buf, headerWrite buf hs = buf ++ headerLines hs := by
  induction hs with
  | nil => intro buf; simp [headerWrite, headerLines]
  | cons h rest ih =>
    intro buf
    simp only [headerWrite, List.foldl_cons, headerLines]
    rw [show List.foldl (fun b h => b ++ (h.1 ++ ": " ++ h.2 ++ "\r\n"))
          (buf ++ (h.1 ++ ": " ++ h.2 ++ "\r\n")) rest
        = headerWrite (buf ++ (h.1 ++ ": " ++ h.2 ++ "\r\n")) rest from rfl,
      ih]
    simp [String.append_assoc]

/-- C1: for every request, the encoded message is exactly the request line
(with `GET` substituted for an empty method), the serialized header lines,
and a final CRLF — nothing else, in particular no body. -/
theorem C1_encoding (req : Request) :
    encodeRequest req =
      (if req.method = "" then "GET" else req.method) ++ " " ++ req.target
        ++ " HTTP/1.1\r\n" ++ headerLines req.headers ++ "\r\n" := by
  simp only [encodeRequest, headerWrite_eq]
  simp [String.append_assoc]

/-- A local network interface as returned by `net.Interfaces()`; the only
field `Do` consults is the multicast flag (`ifc.Flags & net.FlagMulticast`). -/
structure NetInterface where
  multicast : Bool
deriving DecidableEq, Repr

/-- Classification of a `conn.ReadFrom` error, in the order the read loop
tests it: `Timeout()`, else `Temporary()`, else any other error (including
non-`net.Error` values), identified by a code. -/
inductive NetError where
  | timeout
  | temporary
  | other (code : Nat)
deriving DecidableEq, Repr

/-- Outcome of one `conn.ReadFrom` call: a datagram payload, or an error. -/
inductive ReadResult where
  | ok (payload : String)
  | readErr (e : NetError)
deriving DecidableEq, Repr

/-- Outcome of one send attempt — the `SetMulticastInterface` plus
`WriteTo` pair executed for one multicast-capable interface: the set call
may fail, the write may fail, or the write reports `n` bytes written. -/
inductive SendAttempt where
  | setIfErr (code : Nat)
  | writeErr (code : Nat)
  | wrote (n : Nat)
deriving DecidableEq, Repr

/-- The non-nil errors `Do` can return, one constructor per
`return nil, err` site in httpu.go. -/
inductive GoError where
  | resolveErr
  | deadlineErr
  | interfacesErr
  | multicastIfErr (code : Nat)
  | writeToErr (code : Nat)
  | shortWrite (n total : Nat)
  | readErr (code : Nat)
deriving DecidableEq, Repr

/-- Result of `Do`: either the collected responses with a nil error, or a
non-nil error (in which case the Go code returns a nil response slice). -/
inductive DoResult where
  | ok (responses : List String)
  | fail (e : GoError)
deriving DecidableEq, Repr

/-- Observable actions of one `Do` call, recorded in program order. -/
inductive Event where
  | resolve (host : String)
  | setDeadline
  | setMulticastIf (ifIdx : Nat)
  | send (ifIdx : Nat) (payload : String)
  | sleepMs (ms : Nat)
  | readAttempt
  | logParseError
deriving DecidableEq, Repr

/-- The environment one `Do` call runs in: outcomes of the fallible setup
calls, the interface list, an oracle giving the outcome of each send
attempt (indexed by attempt number), the ordered sequence of read
outcomes, and the response parser (`http.ReadResponse`), abstracted as a
function from payload to optional parsed response. -/
structure Env where
  resolveOk : Bool
  deadlineOk : Bool
  interfacesOk : Bool
  interfaces : List NetInterface
  sendOracle : Nat → SendAttempt
  reads : List ReadResult
  parse : String → Option String

/-- One pass of the inner loop (httpu.go lines 86–103) over the remaining
(index, interface) pairs: interfaces without the multicast flag are
skipped; for each multicast-capable one, the multicast interface is set and
the payload written, consuming one oracle entry; a set failure, write
failure, or short write aborts with the corresponding error.  Returns the
events, the updated attempt counter, and the error if any. -/
def sendIfaces (oracle : Nat → SendAttempt) (payload : String) :
    List (Nat × NetInterface) → Nat → List Event × Nat × Option GoError
  | [], k => ([], k, none)
  | (idx, ifc) :: rest, k =>
    if ifc.multicast then
      match oracle k with
      | .setIfErr c => ([.setMulticastIf idx], k + 1, some (.multicastIfErr c))
      | .writeErr c =>
          ([.setMulticastIf idx, .send idx payload], k + 1,
            some (.writeToErr c))
      | .wrote n =>
          if n < payload.length then
            ([.setMulticastIf idx, .send idx payload], k + 1,
              some (.shortWrite n payload.length))
          else
            let r := sendIfaces oracle payload rest (k + 1)
            (.setMulticastIf idx :: .send idx payload :: r.1, r.2.1, r.2.2)
    else
      sendIfaces oracle payload rest k

/-- The outer send loop (httpu.go lines 83–105): the given number of rounds
of one full pass over the interfaces, each completed round followed by a
5ms sleep.  Aborts on the first error. -/
def sendRounds (oracle : Nat → SendAttempt) (payload : String)
    (ifs : List (Nat × NetInterface)) :
    Nat → Nat → List Event × Nat × Option GoError
  | 0, k => ([], k, none)
  | i + 1, k =>
    let r := sendIfaces oracle payload ifs k
    match r.2.2 with
    | some err => (r.1, r.2.1, some err)
    | none =>
      let r2 := sendRounds oracle payload ifs i r.2.1
      (r.1 ++ .sleepMs 5 :: r2.1, r2.2.1, r2.2.2)

/-- The response collection loop (httpu.go lines 110–135), consuming the
read outcomes in order.  A timeout error breaks the loop, returning the
responses accumulated so far (the outer error variable is nil at the final
return, the loop-local one being shadowed); a temporary error sleeps 10ms
and retries; any other error is returned with a nil response slice; a
payload that fails to parse is logged and skipped; parsed responses are
appended in arrival order.  An exhausted read sequence is treated like the
deadline firing. -/
def collect (parse : String → Option String) :
    List ReadResult → List String → DoResult × List Event
  | [], acc => (.ok acc, [])
  | r :: rest, acc =>
    match r with
    | .readErr .timeout => (.ok acc, [.readAttempt])
    | .readErr .temporary =>
      let p := collect parse rest acc
      (p.1, .readAttempt :: .sleepMs 10 :: p.2)
    | .readErr (.other c) => (.fail (.readErr c), [.readAttempt])
    | .ok payload =>
      match parse payload with
      | none =>
        let p := collect parse rest acc
        (p.1, .readAttempt :: .logParseError :: p.2)
      | some resp =>
        let p := collect parse rest (acc ++ [resp])
        (p.1, .readAttempt :: p.2)

/-- The body of `HTTPUClient.Do` (httpu.go lines 47–137): encode the
request, resolve the destination, set the absolute deadline, enumerate the
interfaces, run the send rounds, then collect responses until the
deadline.  `numSends` is a Go `int`; the loop `for i := 0; i < numSends`
runs `numSends.toNat` times. -/
def Do (env : Env) (req : Request) (numSends : Int) : DoResult × List Event :=
  let payload := encodeRequest req
  if env.resolveOk = false then
    (.fail .resolveErr, [.resolve req.host])
  else if env.deadlineOk = false then
    (.fail .deadlineErr, [.resolve req.host, .setDeadline])
  else if env.interfacesOk = false then
    (.fail .interfacesErr, [.resolve req.host, .setDeadline])
  else
    let s := sendRounds env.sendOracle payload env.interfaces.enum
      numSends.toNat 0
    match s.2.2 with
    | some err =>
      (.fail err, .resolve req.host :: .setDeadline :: s.1)
    | none =>
      let c := collect env.parse env.reads []
      (c.1, .resolve req.host :: .setDeadline :: (s.1 ++ c.2))

/-! ### Derived notions used to state the claims -/

/-- Whether an event is a datagram send (a `WriteTo` call). -/
def isSend : Event → Bool
  | .send _ _ => true
  | _ => false

/-- The send events of a trace. -/
def sendEvents (tr : List Event) : List Event := tr.filter isSend

/-- Number of multicast-capable entries in an indexed interface list. -/
def mcount (l : List (Nat × NetInterface)) : Nat :=
  (l.filter (fun x => x.2.multicast)).length

/-- The events of one error-free round over the indexed interface list. -/
def roundEvents (payload : String) : List (Nat × NetInterface) → List Event
  | [] => []
  | (idx, ifc) :: rest =>
    if ifc.multicast then
      .setMulticastIf idx :: .send idx payload :: roundEvents payload rest
    else roundEvents payload rest

/-- A read outcome that neither ends the loop nor aborts it: a datagram or
a temporary error. -/
def benign : ReadResult → Bool
  | .ok _ => true
  | .readErr .temporary => true
  | _ => false

/-- The responses successfully parsed from a sequence of read outcomes, in
arrival order. -/
def parsedOf (parse : String → Option String) (rs : List ReadResult) :
    List String :=
  rs.filterMap (fun r => match r with | .ok p => parse p | _ => none)

/-- The error a send attempt outcome produces, if any, for a payload of the
given length. -/
def failureOf : SendAttempt → Nat → Option GoError
  | .setIfErr c, _ => some (.multicastIfErr c)
  | .writeErr c, _ => some (.writeToErr c)
  | .wrote n, total =>
    if n < total then some (.shortWrite n total) else none

/-- Number of inter-round 5ms pauses in a trace. -/
def pauseCount (tr : List Event) : Nat :=
  (tr.filter (fun e => decide (e = Event.sleepMs 5))).length

/-- Events the send phase can emit. -/
def phase1Event : Event → Bool
  | .setMulticastIf _ => true
  | .send _ _ => true
  | .sleepMs ms => decide (ms = 5)
  | _ => false

/-- Events the collection phase can emit. -/
def phase2Event : Event → Bool
  | .readAttempt => true
  | .sleepMs ms => decide (ms = 10)
  | .logParseError => true
  | _ => false

/-! ### Send-phase lemmas -/

theorem sendIfaces_events (oracle : Nat → SendAttempt) (payload : String) :
    ∀ (l : List (Nat × NetInterface)) (k : Nat),
      ∀ e ∈ (sendIfaces oracle payload l k).1, phase1Event e = true := by
  intro l
  induction l with
  | nil => intro k e he; simp [sendIfaces] at he
  | cons x rest ih =>
    obtain ⟨idx, ifc⟩ := x
    intro k e he
    by_cases hm : ifc.multicast
    · rcases ho : oracle k with c | c | n <;>
        simp only [sendIfaces, hm, if_true, ho] at he
      · simp only [List.mem_singleton] at he
        subst he; rfl
      · simp only [List.mem_cons, List.not_mem_nil, or_false] at he
        rcases he with h | h <;> (subst h; rfl)
      · by_cases hn : n < payload.length
        · simp only [hn, if_true, List.mem_cons, List.not_mem_nil,
            or_false] at he
          rcases he with h | h <;> (subst h; rfl)
        · simp only [hn, if_false, List.mem_cons] at he
          rcases he with h | h | h
          · subst h; rfl
          · subst h; rfl
          · exact ih (k + 1) e h
    · simp only [sendIfaces, hm, if_false] at he
      exact ih k e he

theorem sendRounds_events (oracle : Nat → SendAttempt) (payload : String)
    (ifs : List (Nat × NetInterface)) :
    ∀ (r k : Nat), ∀ e ∈ (sendRounds oracle payload ifs r k).1,
      phase1Event e = true := by
  intro r
  induction r with
  | zero => intro k e he; simp [sendRounds] at he
  | succ i ih =>
    intro k e he
    simp only [sendRounds] at he
    rcases hs : (sendIfaces oracle payload ifs k).2.2 with _ | err
    · rw [hs] at he
      simp only [List.mem_append, List.mem_cons] at he
      rcases he with h | h | h
      · exact sendIfaces_events oracle payload ifs k e h
      · subst h; rfl
      · exact ih _ e h
    · rw [hs] at he
      exact sendIfaces_events oracle payload ifs k e he

theorem collect_events (parse : String → Option String) :
    ∀ (rs : List ReadResult) (acc : List String),
      ∀ e ∈ (collect parse rs acc).2, phase2Event e = true := by
  intro rs
  induction rs with
  | nil => intro acc e he; simp [collect] at he
  | cons r rest ih =>
    intro acc e he
    match r with
    | .readErr .timeout =>
      simp only [collect, List.mem_singleton] at he
      subst he; rfl
    | .readErr .temporary =>
      simp only [collect, List.mem_cons] at he
      rcases he with h | h | h
      · subst h; rfl
      · subst h; rfl
      · exact ih acc e h
    | .readErr (.other c) =>
      simp only [collect, List.mem_singleton] at he
      subst he; rfl
    | .ok p =>
      rcases hp : parse p with _ | resp <;>
        simp only [collect, hp, List.mem_cons] at he
      · rcases he with h | h | h
        · subst h; rfl
        · subst h; rfl
        · exact ih acc e h
      · rcases he with h | h
        · subst h; rfl
        · exact ih (acc ++ [resp]) e h

theorem sendIfaces_good (oracle : Nat → SendAttempt) (payload : String) :
    ∀ (l : List (Nat × NetInterface)) (k : Nat),
      (∀ m, m < k + mcount l → oracle m = .wrote payload.length) →
      sendIfaces oracle payload l k =
        (roundEvents payload l, k + mcount l, none) := by
  intro l
  induction l with
  | nil => intro k h; simp [sendIfaces, roundEvents, mcount]
  | cons x rest ih =>
    obtain ⟨idx, ifc⟩ := x
    intro k h
    by_cases hm : ifc.multicast
    · have hmc : mcount ((idx, ifc) :: rest) = mcount rest + 1 := by
        simp [mcount, List.filter_cons, hm]
      have hk : oracle k = .wrote payload.length := by
        apply h; omega
      have hrec := ih (k + 1) (by intro m hmlt; apply h; omega)
      have harith : k + mcount ((idx, ifc) :: rest) = k + 1 + mcount rest := by
        omega
      rw [harith]
      simp [sendIfaces, hm, hk, hrec, roundEvents]
    · have hmc : mcount ((idx, ifc) :: rest) = mcount rest := by
        simp [mcount, List.filter_cons, hm]
      have hrec := ih k (by intro m hmlt; apply h; omega)
      rw [hmc]
      simp [sendIfaces, hm, hrec, roundEvents]

theorem sendRounds_good (oracle : Nat → SendAttempt) (payload : String)
    (ifs : List (Nat × NetInterface)) :
    ∀ (r k : Nat),
      (∀ m, m < k + r * mcount ifs → oracle m = .wrote payload.length) →
      sendRounds oracle payload ifs r k =
        (List.flatten (List.replicate r
            (roundEvents payload ifs ++ [Event.sleepMs 5])),
         k + r * mcount ifs, none) := by
  intro r
  induction r with
  | zero => intro k h; simp [sendRounds]
  | succ i ih =>
    intro k h
    have hmul : (i + 1) * mcount ifs = i * mcount ifs + mcount ifs :=
      Nat.succ_mul i _
    have h1 := sendIfaces_good oracle payload ifs k
      (by intro m hm; apply h; omega)
    have h2 := ih (k + mcount ifs)
      (by intro m hm; apply h; omega)
    have harith : k + (i + 1) * mcount ifs = k + mcount ifs + i * mcount ifs := by
      omega
    rw [harith]
    simp [sendRounds, h1, h2, List.replicate_succ, List.flatten_cons]

theorem sendEvents_roundEvents (payload : String) :
    ∀ l : List (Nat × NetInterface),
      sendEvents (roundEvents payload l) =
        (l.filter (fun x => x.2.multicast)).map
          (fun x => Event.send x.1 payload) := by
  intro l
  induction l with
  | nil => simp [roundEvents, sendEvents]
  | cons x rest ih =>
    obtain ⟨idx, ifc⟩ := x
    by_cases hm : ifc.multicast <;>
      simp [roundEvents, sendEvents, List.filter_cons, hm, isSend,
        ← ih, sendEvents]

theorem send_mem_roundEvents (payload : String) (i : Nat) (p : String) :
    ∀ l : List (Nat × NetInterface),
      Event.send i p ∈ roundEvents payload l →
      p = payload ∧ ∃ ifc, (i, ifc) ∈ l ∧ ifc.multicast = true := by
  intro l
  induction l with
  | nil => intro h; simp [roundEvents] at h
  | cons x rest ih =>
    obtain ⟨idx, ifc⟩ := x
    intro h
    by_cases hm : ifc.multicast
    · simp only [roundEvents, hm, if_true, List.mem_cons] at h
      rcases h with h | h | h
      · cases h
      · cases h
        exact ⟨rfl, ifc, by simp, hm⟩
      · obtain ⟨hp, ifc2, hmem, hm2⟩ := ih h
        exact ⟨hp, ifc2, List.mem_cons_of_mem _ hmem, hm2⟩
    · simp only [roundEvents, hm, if_false] at h
      obtain ⟨hp, ifc2, hmem, hm2⟩ := ih h
      exact ⟨hp, ifc2, List.mem_cons_of_mem _ hmem, hm2⟩

theorem mcount_enumFrom (ifs : List NetInterface) :
    ∀ n : Nat, mcount (ifs.enumFrom n) =
      (ifs.filter (fun ifc => ifc.multicast)).length := by
  induction ifs with
  | nil => intro n; simp [List.enumFrom, mcount]
  | cons ifc rest ih =>
    intro n
    by_cases hm : ifc.multicast <;>
      simp [List.enumFrom, mcount, List.filter_cons, hm, ← ih (n + 1),
        mcount]

theorem mcount_enum (ifs : List NetInterface) :
    mcount ifs.enum = (ifs.filter (fun ifc => ifc.multicast)).length :=
  mcount_enumFrom ifs 0

theorem sendEvents_append (tr1 tr2 : List Event) :
    sendEvents (tr1 ++ tr2) = sendEvents tr1 ++ sendEvents tr2 := by
  simp [sendEvents, List.filter_append]

theorem filter_flatten_replicate {α : Type} (p : α → Bool) (b : List α) :
    ∀ r : Nat, (List.flatten (List.replicate r b)).filter p =
      List.flatten (List.replicate r (b.filter p)) := by
  intro r
  induction r with
  | zero => simp
  | succ i ih =>
    simp [List.replicate_succ, List.flatten_cons, List.filter_append, ih]

theorem length_flatten_replicate {α : Type} (b : List α) :
    ∀ r : Nat, (List.flatten (List.replicate r b)).length = r * b.length := by
  intro r
  induction r with
  | zero => simp
  | succ i ih =>
    simp [List.replicate_succ, List.flatten_cons, ih, Nat.succ_mul]
    ring

theorem mem_flatten_replicate {α : Type} (b : List α) (r : Nat) (e : α) :
    e ∈ List.flatten (List.replicate r b) → e ∈ b := by
  intro h
  rw [List.mem_flatten] at h
  obtain ⟨l, hl, he⟩ := h
  rwa [List.eq_of_mem_replicate hl] at he

/-! ### Collection-phase lemmas -/

theorem collect_result_timeout (parse : String → Option String) :
    ∀ (rs : List ReadResult) (acc : List String) (rest : List ReadResult),
      (∀ r ∈ rs, benign r = true) →
      (collect parse (rs ++ .readErr .timeout :: rest) acc).1 =
        .ok (acc ++ parsedOf parse rs) := by
  intro rs
  induction rs with
  | nil => intro acc rest h; simp [collect, parsedOf]
  | cons r rtl ih =>
    intro acc rest h
    have hr : benign r = true := h r (List.mem_cons_self r rtl)
    have htl : ∀ x ∈ rtl, benign x = true :=
      fun x hx => h x (List.mem_cons_of_mem r hx)
    match r with
    | .readErr .temporary =>
      simp only [List.cons_append, collect, parsedOf, List.filterMap_cons]
      exact ih acc rest htl
    | .ok p =>
      rcases hp : parse p with _ | resp
      · simp only [List.cons_append, collect, hp, parsedOf,
          List.filterMap_cons]
        exact ih acc rest htl
      · simp only [List.cons_append, collect, hp, parsedOf,
          List.filterMap_cons, List.append_eq]
        rw [ih (acc ++ [resp]) rest htl]
        simp [parsedOf]
    | .readErr .timeout => simp [benign] at hr
    | .readErr (.other c) => simp [benign] at hr

theorem collect_result_fatal (parse : String → Option String) (c : Nat) :
    ∀ (rs : List ReadResult) (acc : List String) (rest : List ReadResult),
      (∀ r ∈ rs, benign r = true) →
      (collect parse (rs ++ .readErr (.other c) :: rest) acc).1 =
        .fail (.readErr c) := by
  intro rs
  induction rs with
  | nil => intro acc rest h; simp [collect]
  | cons r rtl ih =>
    intro acc rest h
    have hr : benign r = true := h r (List.mem_cons_self r rtl)
    have htl : ∀ x ∈ rtl, benign x = true :=
      fun x hx => h x (List.mem_cons_of_mem r hx)
    match r with
    | .readErr .temporary =>
      simp only [List.cons_append, collect]
      exact ih acc rest htl
    | .ok p =>
      rcases hp : parse p with _ | resp <;>
        simp only [List.cons_append, collect, hp]
      · exact ih acc rest htl
      · exact ih (acc ++ [resp]) rest htl
    | .readErr .timeout => simp [benign] at hr
    | .readErr (.other c2) => simp [benign] at hr

theorem collect_skip_parsefail (parse : String → Option String)
    (bad : String) (hbad : parse bad = none) :
    ∀ (rs1 : List ReadResult) (acc : List String) (rs2 : List ReadResult),
      (collect parse (rs1 ++ .ok bad :: rs2) acc).1 =
        (collect parse (rs1 ++ rs2) acc).1 := by
  intro rs1
  induction rs1 with
  | nil => intro acc rs2; simp [collect, hbad]
  | cons r rtl ih =>
    intro acc rs2
    match r with
    | .readErr .timeout => simp [collect]
    | .readErr .temporary =>
      simp only [List.cons_append, collect]
      exact ih acc rs2
    | .readErr (.other c) => simp [collect]
    | .ok p =>
      rcases hp : parse p with _ | resp <;>
        simp only [List.cons_append, collect, hp]
      · exact ih acc rs2
      · exact ih (acc ++ [resp]) rs2

theorem collect_skip_temporary (parse : String → Option String) :
    ∀ (rs1 : List ReadResult) (acc : List String) (rs2 : List ReadResult),
      (collect parse (rs1 ++ .readErr .temporary :: rs2) acc).1 =
        (collect parse (rs1 ++ rs2) acc).1 := by
  intro rs1
  induction rs1 with
  | nil => intro acc rs2; simp [collect]
  | cons r rtl ih =>
    intro acc rs2
    match r with
    | .readErr .timeout => simp [collect]
    | .readErr .temporary =>
      simp only [List.cons_append, collect]
      exact ih acc rs2
    | .readErr (.other c) => simp [collect]
    | .ok p =>
      rcases hp : parse p with _ | resp <;>
        simp only [List.cons_append, collect, hp]
      · exact ih acc rs2
      · exact ih (acc ++ [resp]) rs2

theorem logParse_mem_collect (parse : String → Option String)
    (bad : String) (hbad : parse bad = none) :
    ∀ (rs1 : List ReadResult) (acc : List String) (rs2 : List ReadResult),
      (∀ r ∈ rs1, benign r = true) →
      Event.logParseError ∈ (collect parse (rs1 ++ .ok bad :: rs2) acc).2 := by
  intro rs1
  induction rs1 with
  | nil => intro acc rs2 h; simp [collect, hbad]
  | cons r rtl ih =>
    intro acc rs2 h
    have hr : benign r = true := h r (List.mem_cons_self r rtl)
    have htl : ∀ x ∈ rtl, benign x = true :=
      fun x hx => h x (List.mem_cons_of_mem r hx)
    match r with
    | .readErr .temporary =>
      simp only [List.cons_append, collect, List.mem_cons]
      exact Or.inr (Or.inr (ih acc rs2 htl))
    | .ok p =>
      rcases hp : parse p with _ | resp <;>
        simp only [List.cons_append, collect, hp, List.mem_cons]
      · exact Or.inr (Or.inr (ih acc rs2 htl))
      · exact Or.inr (ih (acc ++ [resp]) rs2 htl)
    | .readErr .timeout => simp [benign] at hr
    | .readErr (.other c) => simp [benign] at hr

theorem sleep10_mem_collect (parse : String → Option String) :
    ∀ (rs1 : List ReadResult) (acc : List String) (rs2 : List ReadResult),
      (∀ r ∈ rs1, benign r = true) →
      Event.sleepMs 10 ∈
        (collect parse (rs1 ++ .readErr .temporary :: rs2) acc).2 := by
  intro rs1
  induction rs1 with
  | nil => intro acc rs2 h; simp [collect]
  | cons r rtl ih =>
    intro acc rs2 h
    have hr : benign r = true := h r (List.mem_cons_self r rtl)
    have htl : ∀ x ∈ rtl, benign x = true :=
      fun x hx => h x (List.mem_cons_of_mem r hx)
    match r with
    | .readErr .temporary =>
      simp only [List.cons_append, collect, List.mem_cons]
      exact Or.inr (Or.inr (ih acc rs2 htl))
    | .ok p =>
      rcases hp : parse p with _ | resp <;>
        simp only [List.cons_append, collect, hp, List.mem_cons]
      · exact Or.inr (Or.inr (ih acc rs2 htl))
      · exact Or.inr (ih (acc ++ [resp]) rs2 htl)
    | .readErr .timeout => simp [benign] at hr
    | .readErr (.other c) => simp [benign] at hr

/-! ### Unfolding `Do` on its main paths -/

theorem Do_good (env : Env) (req : Request) (numSends : Int)
    (h1 : env.resolveOk = true) (h2 : env.deadlineOk = true)
    (h3 : env.interfacesOk = true)
    (hor : ∀ m, env.sendOracle m = .wrote (encodeRequest req).length) :
    Do env req numSends =
      ((collect env.parse env.reads []).1,
        .resolve req.host :: .setDeadline ::
          (List.flatten (List.replicate numSends.toNat
              (roundEvents (encodeRequest req) env.interfaces.enum ++
                [Event.sleepMs 5])) ++
            (collect env.parse env.reads []).2)) := by
  have hr := sendRounds_good env.sendOracle (encodeRequest req)
    env.interfaces.enum numSends.toNat 0 (fun m _ => hor m)
  simp [Do, h1, h2, h3, hr]

/-! ### The send phase in the presence of a failing attempt -/

theorem sendIfaces_fail (oracle : Nat → SendAttempt) (payload : String)
    (j : Nat) (e : GoError)
    (hj : failureOf (oracle j) payload.length = some e) :
    ∀ (l : List (Nat × NetInterface)) (k : Nat),
      (∀ m, k ≤ m → m < j → oracle m = .wrote payload.length) →
      k ≤ j → j < k + mcount l →
      (sendIfaces oracle payload l k).2.2 = some e := by
  intro l
  induction l with
  | nil =>
    intro k hgood hkj hlt
    simp [mcount] at hlt
    omega
  | cons x rest ih =>
    obtain ⟨idx, ifc⟩ := x
    intro k hgood hkj hlt
    by_cases hm : ifc.multicast
    · have hmc : mcount ((idx, ifc) :: rest) = mcount rest + 1 := by
        simp [mcount, List.filter_cons, hm]
      by_cases hkeq : k = j
      · subst hkeq
        rcases ho : oracle k with c | c | n <;>
          rw [ho] at hj <;> simp only [failureOf] at hj
        · simp [sendIfaces, hm, ho, hj]
        · simp [sendIfaces, hm, ho, hj]
        · by_cases hn : n < payload.length
          · rw [if_pos hn] at hj
            simp [sendIfaces, hm, ho, hn, hj]
          · rw [if_neg hn] at hj
            cases hj
      · have hk : oracle k = .wrote payload.length :=
          hgood k (Nat.le_refl k) (by omega)
        have hrec := ih (k + 1)
          (fun m h1 h2 => hgood m (by omega) h2) (by omega) (by omega)
        simp [sendIfaces, hm, hk, hrec]
    · have hmc : mcount ((idx, ifc) :: rest) = mcount rest := by
        simp [mcount, List.filter_cons, hm]
      have hrec := ih k hgood hkj (by omega)
      simp [sendIfaces, hm, hrec]

theorem sendRounds_fail (oracle : Nat → SendAttempt) (payload : String)
    (ifs : List (Nat × NetInterface)) (j : Nat) (e : GoError)
    (hj : failureOf (oracle j) payload.length = some e) :
    ∀ (r k : Nat),
      (∀ m, m < j → oracle m = .wrote payload.length) →
      k ≤ j → j < k + r * mcount ifs →
      (sendRounds oracle payload ifs r k).2.2 = some e := by
  intro r
  induction r with
  | zero => intro k hgood hkj hlt; simp at hlt; omega
  | succ i ih =>
    intro k hgood hkj hlt
    have hmul : (i + 1) * mcount ifs = i * mcount ifs + mcount ifs :=
      Nat.succ_mul i _
    by_cases hcase : j < k + mcount ifs
    · have hfail := sendIfaces_fail oracle payload j e hj ifs k
        (fun m _ h2 => hgood m h2) hkj hcase
      simp [sendRounds, hfail]
    · have hround := sendIfaces_good oracle payload ifs k
        (fun m hm => hgood m (by omega))
      have hrec := ih (k + mcount ifs) hgood (by omega) (by omega)
      simp [sendRounds, hround, hrec]

theorem Do_sendfail (env : Env) (req : Request) (numSends : Int)
    (h1 : env.resolveOk = true) (h2 : env.deadlineOk = true)
    (h3 : env.interfacesOk = true) (j : Nat) (e : GoError)
    (hgood : ∀ m, m < j →
      env.sendOracle m = .wrote (encodeRequest req).length)
    (hj : failureOf (env.sendOracle j) (encodeRequest req).length = some e)
    (hlt : j < numSends.toNat * mcount env.interfaces.enum) :
    (Do env req numSends).1 = .fail e ∧
    Event.readAttempt ∉ (Do env req numSends).2 := by
  have hfail := sendRounds_fail env.sendOracle (encodeRequest req)
    env.interfaces.enum j e hj numSends.toNat 0 hgood (Nat.zero_le j)
    (by omega)
  constructor
  · simp [Do, h1, h2, h3, hfail]
  · intro hmem
    simp only [Do, h1, h2, h3, Bool.true_eq_false, if_false, hfail] at hmem
    simp only [List.mem_cons] at hmem
    rcases hmem with h | h | h
    · cases h
    · cases h
    · have := sendRounds_events env.sendOracle (encodeRequest req)
        env.interfaces.enum numSends.toNat 0 Event.readAttempt h
      simp [phase1Event] at this

theorem sendEvents_nil_of_phase2 (tr : List Event)
    (h : ∀ e ∈ tr, phase2Event e = true) : sendEvents tr = [] := by
  rw [sendEvents, List.filter_eq_nil_iff]
  intro e he
  have h2 := h e he
  cases e <;> simp_all [phase2Event, isSend]

theorem pauseCount_zero_of_phase2 (tr : List Event)
    (h : ∀ e ∈ tr, phase2Event e = true) : pauseCount tr = 0 := by
  rw [pauseCount, List.length_eq_zero, List.filter_eq_nil_iff]
  intro e he
  have h2 := h e he
  cases e <;> simp_all [phase2Event]

theorem pauseCount_roundEvents (payload : String) :
    ∀ l : List (Nat × NetInterface),
      pauseCount (roundEvents payload l) = 0 := by
  intro l
  induction l with
  | nil => simp [roundEvents, pauseCount]
  | cons x rest ih =>
    obtain ⟨idx, ifc⟩ := x
    by_cases hm : ifc.multicast <;>
      simp [roundEvents, hm, pauseCount, List.filter_cons] at ih ⊢ <;>
      exact ih

/-! ### The claims -/

/-- C2: with `numSends = k ≥ 1` and a transport that accepts every
datagram, exactly `k * N` send attempts occur where `N` is the number of
multicast-capable interfaces, every send event carries the encoded request
as payload, and every send event targets a multicast-capable interface (so
interfaces without the multicast flag receive zero sends). -/
theorem C2_send_attempts (env : Env) (req : Request) (k : Nat)
    (h1 : env.resolveOk = true) (h2 : env.deadlineOk = true)
    (h3 : env.interfacesOk = true) (hk : 1 ≤ k)
    (hor : ∀ m, env.sendOracle m = .wrote (encodeRequest req).length) :
    (sendEvents (Do env req (k : Int)).2).length =
        k * (env.interfaces.filter (fun ifc => ifc.multicast)).length ∧
    ∀ i p, Event.send i p ∈ (Do env req (k : Int)).2 →
      p = encodeRequest req ∧
      ∃ ifc, env.interfaces[i]? = some ifc ∧ ifc.multicast = true := by
  rw [Do_good env req (k : Int) h1 h2 h3 hor]
  simp only [Int.toNat_natCast]
  have hcol := sendEvents_nil_of_phase2 _
    (collect_events env.parse env.reads [])
  constructor
  · simp only [sendEvents, List.filter_cons, isSend, List.filter_append,
      Bool.false_eq_true, if_false]
    rw [filter_flatten_replicate]
    rw [show (roundEvents (encodeRequest req) env.interfaces.enum ++
        [Event.sleepMs 5]).filter isSend =
        sendEvents (roundEvents (encodeRequest req) env.interfaces.enum)
      from by simp [sendEvents, List.filter_append, isSend]]
    rw [sendEvents_roundEvents]
    rw [sendEvents] at hcol
    rw [hcol]
    simp [length_flatten_replicate, List.length_map]
    rw [show ((env.interfaces.enum.filter
        (fun x => x.2.multicast)).length) = mcount env.interfaces.enum
      from rfl, mcount_enum]
    exact Or.inl rfl
  · intro i p hmem
    simp only [List.mem_cons, List.mem_append] at hmem
    rcases hmem with h | h | h | h
    · cases h
    · cases h
    · have hb := mem_flatten_replicate _ _ _ h
      rw [List.mem_append] at hb
      rcases hb with hb | hb
      · obtain ⟨hp, ifc, hmem2, hm⟩ :=
          send_mem_roundEvents (encodeRequest req) i p _ hb
        exact ⟨hp, ifc, List.mk_mem_enum_iff_getElem?.mp hmem2, hm⟩
      · simp at hb
    · have := collect_events env.parse env.reads [] _ h
      simp [phase2Event] at this

/-- C3: when the reads before the deadline are all benign (datagrams or
temporary errors) and then a timeout occurs, `Do` returns the responses
parsed so far together with a nil error; with no benign reads at all this
is the empty sequence with a nil error — never a timeout error. -/
theorem C3_timeout_normal_return (env : Env) (req : Request)
    (numSends : Int) (rs rest : List ReadResult)
    (h1 : env.resolveOk = true) (h2 : env.deadlineOk = true)
    (h3 : env.interfacesOk = true)
    (hor : ∀ m, env.sendOracle m = .wrote (encodeRequest req).length)
    (hbenign : ∀ r ∈ rs, benign r = true)
    (hreads : env.reads = rs ++ .readErr .timeout :: rest) :
    (Do env req numSends).1 = .ok (parsedOf env.parse rs) := by
  rw [Do_good env req numSends h1 h2 h3 hor]
  rw [show ((collect env.parse env.reads []).1, Event.resolve req.host ::
      Event.setDeadline :: (List.flatten (List.replicate numSends.toNat
        (roundEvents (encodeRequest req) env.interfaces.enum ++
          [Event.sleepMs 5])) ++ (collect env.parse env.reads []).2)).1 =
      (collect env.parse env.reads []).1 from rfl]
  rw [hreads, collect_result_timeout env.parse rs [] rest hbenign]
  simp

/-- C4: on every path that passes setup, the deadline is set exactly once,
immediately after address resolution and before every send and every read
of the call. -/
theorem C4_deadline_before_sends (env : Env) (req : Request)
    (numSends : Int) (h1 : env.resolveOk = true)
    (h2 : env.deadlineOk = true) (h3 : env.interfacesOk = true) :
    ∃ rest, (Do env req numSends).2 =
        .resolve req.host :: .setDeadline :: rest ∧
      Event.setDeadline ∉ rest := by
  simp only [Do, h1, h2, h3, Bool.true_eq_false, if_false]
  rcases hs : (sendRounds env.sendOracle (encodeRequest req)
      env.interfaces.enum numSends.toNat 0).2.2 with _ | err
  · refine ⟨_, rfl, ?_⟩
    intro hmem
    rw [List.mem_append] at hmem
    rcases hmem with h | h
    · have := sendRounds_events env.sendOracle (encodeRequest req)
        env.interfaces.enum numSends.toNat 0 _ h
      simp [phase1Event] at this
    · have := collect_events env.parse env.reads [] _ h
      simp [phase2Event] at this
  · refine ⟨_, rfl, ?_⟩
    intro hmem
    have := sendRounds_events env.sendOracle (encodeRequest req)
      env.interfaces.enum numSends.toNat 0 _ hmem
    simp [phase1Event] at this

/-- C5: a datagram that fails to parse is logged, contributes nothing to
the result, and does not stop collection: the call returns exactly what it
would have returned had the datagram never arrived (so later well-formed
datagrams are still parsed and appended), and the failure never becomes a
call-level error. -/
theorem C5_parse_failure_skipped (env : Env) (req : Request)
    (numSends : Int) (bad : String) (rs1 rs2 : List ReadResult)
    (h1 : env.resolveOk = true) (h2 : env.deadlineOk = true)
    (h3 : env.interfacesOk = true)
    (hor : ∀ m, env.sendOracle m = .wrote (encodeRequest req).length)
    (hbenign : ∀ r ∈ rs1, benign r = true)
    (hbad : env.parse bad = none) :
    (Do { env with reads := rs1 ++ .ok bad :: rs2 } req numSends).1 =
      (Do { env with reads := rs1 ++ rs2 } req numSends).1 ∧
    Event.logParseError ∈
      (Do { env with reads := rs1 ++ .ok bad :: rs2 } req numSends).2 := by
  rw [Do_good { env with reads := rs1 ++ .ok bad :: rs2 } req numSends
      h1 h2 h3 hor,
    Do_good { env with reads := rs1 ++ rs2 } req numSends h1 h2 h3 hor]
  constructor
  · exact collect_skip_parsefail env.parse bad hbad rs1 [] rs2
  · exact List.mem_cons_of_mem _ (List.mem_cons_of_mem _
      (List.mem_append_right _
        (logParse_mem_collect env.parse bad hbad rs1 [] rs2 hbenign)))

/-- C6: a temporary read error causes a 10ms sleep and a retry, changing
nothing in the result and never surfacing to the caller; any other
non-timeout read error aborts `Do` immediately, which returns that error
and discards the responses accumulated so far (a nil slice is returned). -/
theorem C6_temporary_retry_fatal_abort (env : Env) (req : Request)
    (numSends : Int) (c : Nat) (rs1 rs2 : List ReadResult)
    (h1 : env.resolveOk = true) (h2 : env.deadlineOk = true)
    (h3 : env.interfacesOk = true)
    (hor : ∀ m, env.sendOracle m = .wrote (encodeRequest req).length)
    (hbenign : ∀ r ∈ rs1, benign r = true) :
    ((Do { env with reads := rs1 ++ .readErr .temporary :: rs2 } req
        numSends).1 =
      (Do { env with reads := rs1 ++ rs2 } req numSends).1 ∧
     Event.sleepMs 10 ∈
      (Do { env with reads := rs1 ++ .readErr .temporary :: rs2 } req
        numSends).2) ∧
    (Do { env with reads := rs1 ++ .readErr (.other c) :: rs2 } req
        numSends).1 = .fail (.readErr c) := by
  refine ⟨⟨?_, ?_⟩, ?_⟩
  · rw [Do_good { env with reads := rs1 ++ .readErr .temporary :: rs2 }
        req numSends h1 h2 h3 hor,
      Do_good { env with reads := rs1 ++ rs2 } req numSends h1 h2 h3 hor]
    exact collect_skip_temporary env.parse rs1 [] rs2
  · rw [Do_good { env with reads := rs1 ++ .readErr .temporary :: rs2 }
        req numSends h1 h2 h3 hor]
    exact List.mem_cons_of_mem _ (List.mem_cons_of_mem _
      (List.mem_append_right _
        (sleep10_mem_collect env.parse rs1 [] rs2 hbenign)))
  · rw [Do_good { env with reads := rs1 ++ .readErr (.other c) :: rs2 }
        req numSends h1 h2 h3 hor]
    exact collect_result_fatal env.parse c rs1 [] rs2 hbenign

/-- C7: if the send attempt number `j` (reached because all earlier
attempts wrote the full payload and `j` is within the attempts the rounds
perform) fails at the transport layer or writes fewer bytes than the
encoded message, `Do` aborts with that error and performs no read at all,
so no responses are collected or returned. -/
theorem C7_send_failure_fatal (env : Env) (req : Request)
    (numSends : Int) (j : Nat)
    (h1 : env.resolveOk = true) (h2 : env.deadlineOk = true)
    (h3 : env.interfacesOk = true)
    (hgood : ∀ m, m < j →
      env.sendOracle m = .wrote (encodeRequest req).length)
    (hlt : j < numSends.toNat *
      (env.interfaces.filter (fun ifc => ifc.multicast)).length) :
    (∀ c, env.sendOracle j = .writeErr c →
      (Do env req numSends).1 = .fail (.writeToErr c) ∧
      Event.readAttempt ∉ (Do env req numSends).2) ∧
    (∀ n, env.sendOracle j = .wrote n → n < (encodeRequest req).length →
      (Do env req numSends).1 =
        .fail (.shortWrite n (encodeRequest req).length) ∧
      Event.readAttempt ∉ (Do env req numSends).2) := by
  have hlt2 : j < numSends.toNat * mcount env.interfaces.enum := by
    rw [mcount_enum]; exact hlt
  constructor
  · intro c hc
    exact Do_sendfail env req numSends h1 h2 h3 j (.writeToErr c) hgood
      (by rw [hc]; rfl) hlt2
  · intro n hn hsz
    exact Do_sendfail env req numSends h1 h2 h3 j
      (.shortWrite n (encodeRequest req).length) hgood
      (by rw [hn]; simp [failureOf, hsz]) hlt2

/-- C8: when the destination host string does not resolve, `Do` returns
the resolution error and the trace contains no send at all — the failure
precedes any datagram. -/
theorem C8_resolve_failure_first (env : Env) (req : Request)
    (numSends : Int) (h : env.resolveOk = false) :
    (Do env req numSends).1 = .fail .resolveErr ∧
    sendEvents (Do env req numSends).2 = [] := by
  constructor <;> simp [Do, h, sendEvents, isSend]

theorem pauseCount_append (a b : List Event) :
    pauseCount (a ++ b) = pauseCount a + pauseCount b := by
  simp [pauseCount, List.filter_append]

theorem pauseCount_flatten_replicate (b : List Event) (r : Nat) :
    pauseCount (List.flatten (List.replicate r b)) = r * pauseCount b := by
  rw [pauseCount, filter_flatten_replicate, length_flatten_replicate]
  rfl

/-- A concrete request: empty method, SSDP-style target and host. -/
def reqW : Request :=
  { method := "", target := "*",
    headers := [("MAN", "\"ssdp:discover\"")],
    host := "239.255.255.250:1900" }

/-- A concrete environment: one multicast-capable interface and one
without, a transport accepting every datagram, then a response, a
temporary error, a malformed datagram, the deadline, and a late datagram
the deadline cuts off. -/
def envW : Env :=
  { resolveOk := true, deadlineOk := true, interfacesOk := true,
    interfaces := [⟨true⟩, ⟨false⟩],
    sendOracle := fun _ => .wrote (encodeRequest reqW).length,
    reads := [.ok "R", .readErr .temporary, .ok "bad",
      .readErr .timeout, .ok "late"],
    parse := fun s => if s = "R" then some s else none }

/-- C9 counterexample: with one multicast-capable interface and
`numSends = 1`, the claim predicts `1 - 1 = 0` inter-round pauses with
none after the final round, but the code sleeps 5ms once — after the
final (only) round, before collection begins. -/
theorem C9_counterexample :
    pauseCount (Do envW reqW ((1 : Nat) : Int)).2 ≠ 1 - 1 := by
  decide

/-- C9 amended: the 5ms pause occurs after every round including the
final one — `k` pauses in total for `numSends = k` — and one pause lies
between the final round and collection: the trace ends with a 5ms pause
followed only by collection events (no further send, no further pause). -/
theorem C9_amended_pause_after_every_round (env : Env) (req : Request)
    (k : Nat) (h1 : env.resolveOk = true) (h2 : env.deadlineOk = true)
    (h3 : env.interfacesOk = true) (hk : 1 ≤ k)
    (hor : ∀ m, env.sendOracle m = .wrote (encodeRequest req).length) :
    pauseCount (Do env req (k : Int)).2 = k ∧
    ∃ l1 l2, (Do env req (k : Int)).2 = l1 ++ Event.sleepMs 5 :: l2 ∧
      sendEvents l2 = [] ∧ pauseCount l2 = 0 := by
  rw [Do_good env req (k : Int) h1 h2 h3 hor]
  simp only [Int.toNat_natCast]
  have hcolS := sendEvents_nil_of_phase2 _
    (collect_events env.parse env.reads [])
  have hcolP := pauseCount_zero_of_phase2 _
    (collect_events env.parse env.reads [])
  have hround := pauseCount_roundEvents (encodeRequest req)
    env.interfaces.enum
  constructor
  · rw [show pauseCount (Event.resolve req.host :: Event.setDeadline ::
        (List.flatten (List.replicate k
            (roundEvents (encodeRequest req) env.interfaces.enum ++
              [Event.sleepMs 5])) ++ (collect env.parse env.reads []).2)) =
        pauseCount (List.flatten (List.replicate k
            (roundEvents (encodeRequest req) env.interfaces.enum ++
              [Event.sleepMs 5])) ++ (collect env.parse env.reads []).2)
      from by simp [pauseCount, List.filter_cons]]
    rw [pauseCount_append, pauseCount_flatten_replicate, pauseCount_append,
      hround, hcolP]
    simp [pauseCount]
  · obtain ⟨i, rfl⟩ : ∃ i, k = i + 1 := ⟨k - 1, by omega⟩
    refine ⟨Event.resolve req.host :: Event.setDeadline ::
        (List.flatten (List.replicate i
            (roundEvents (encodeRequest req) env.interfaces.enum ++
              [Event.sleepMs 5])) ++
          roundEvents (encodeRequest req) env.interfaces.enum),
      (collect env.parse env.reads []).2, ?_, hcolS, hcolP⟩
    rw [List.replicate_succ']
    simp [List.flatten_append, List.append_assoc]

/-- C10: with `numSends ≤ 0` no datagram is sent at all, yet the deadline
is still set and the collection loop still runs, returning the responses
parsed before the deadline with a nil error. -/
theorem C10_nonpositive_numSends (env : Env) (req : Request)
    (numSends : Int) (rs rest : List ReadResult)
    (h1 : env.resolveOk = true) (h2 : env.deadlineOk = true)
    (h3 : env.interfacesOk = true)
    (hor : ∀ m, env.sendOracle m = .wrote (encodeRequest req).length)
    (hn : numSends ≤ 0)
    (hbenign : ∀ r ∈ rs, benign r = true)
    (hreads : env.reads = rs ++ .readErr .timeout :: rest) :
    sendEvents (Do env req numSends).2 = [] ∧
    Event.setDeadline ∈ (Do env req numSends).2 ∧
    (Do env req numSends).1 = .ok (parsedOf env.parse rs) := by
  rw [Do_good env req numSends h1 h2 h3 hor, Int.toNat_of_nonpos hn]
  have hcolS := sendEvents_nil_of_phase2 _
    (collect_events env.parse env.reads [])
  refine ⟨?_, ?_, ?_⟩
  · rw [sendEvents] at hcolS
    simp [sendEvents, List.filter_cons, isSend, hcolS]
  · exact List.mem_cons_of_mem _ (List.mem_cons_self _ _)
  · rw [show ((collect env.parse env.reads []).1, Event.resolve req.host ::
        Event.setDeadline :: (List.flatten (List.replicate 0
          (roundEvents (encodeRequest req) env.interfaces.enum ++
            [Event.sleepMs 5])) ++ (collect env.parse env.reads []).2)).1 =
        (collect env.parse env.reads []).1 from rfl]
    rw [hreads, collect_result_timeout env.parse rs [] rest hbenign]
    simp

/-! ### Witnesses at concrete inputs -/

/-- A concrete environment whose second send attempt fails at the
transport layer. -/
def envF : Env :=
  { envW with sendOracle := fun m =>
      if m = 1 then .writeErr 7
      else .wrote (encodeRequest reqW).length }

/-- Witness for C2: two rounds over one multicast-capable and one
non-multicast interface. -/
theorem C2_send_attempts_witness :
    (sendEvents (Do envW reqW ((2 : Nat) : Int)).2).length =
        2 * (envW.interfaces.filter (fun ifc => ifc.multicast)).length ∧
    ∀ i p, Event.send i p ∈ (Do envW reqW ((2 : Nat) : Int)).2 →
      p = encodeRequest reqW ∧
      ∃ ifc, envW.interfaces[i]? = some ifc ∧ ifc.multicast = true :=
  C2_send_attempts envW reqW 2 rfl rfl rfl (by decide) (fun m => rfl)

/-- Witness for C3: one response, a temporary error and a malformed
datagram, then the deadline. -/
theorem C3_timeout_normal_return_witness :
    (Do envW reqW ((2 : Nat) : Int)).1 =
      .ok (parsedOf envW.parse [.ok "R", .readErr .temporary, .ok "bad"]) :=
  C3_timeout_normal_return envW reqW ((2 : Nat) : Int)
    [.ok "R", .readErr .temporary, .ok "bad"] [.ok "late"]
    rfl rfl rfl (fun m => rfl) (by decide) rfl

/-- Witness for C4. -/
theorem C4_deadline_before_sends_witness :
    ∃ rest, (Do envW reqW ((2 : Nat) : Int)).2 =
        .resolve reqW.host :: .setDeadline :: rest ∧
      Event.setDeadline ∉ rest :=
  C4_deadline_before_sends envW reqW ((2 : Nat) : Int) rfl rfl rfl

/-- Witness for C5: the malformed datagram between a parsed response and
the deadline changes nothing and is logged. -/
theorem C5_parse_failure_skipped_witness :
    (Do { envW with reads := [.ok "R", .readErr .temporary, .ok "bad",
        .readErr .timeout] } reqW ((2 : Nat) : Int)).1 =
      (Do { envW with reads := [.ok "R", .readErr .temporary,
        .readErr .timeout] } reqW ((2 : Nat) : Int)).1 ∧
    Event.logParseError ∈
      (Do { envW with reads := [.ok "R", .readErr .temporary, .ok "bad",
        .readErr .timeout] } reqW ((2 : Nat) : Int)).2 :=
  C5_parse_failure_skipped envW reqW ((2 : Nat) : Int) "bad"
    [.ok "R", .readErr .temporary] [.readErr .timeout]
    rfl rfl rfl (fun m => rfl) (by decide) (by decide)

/-- Witness for C6: a temporary error is retried invisibly; a fatal read
error aborts with that error. -/
theorem C6_temporary_retry_fatal_abort_witness :
    ((Do { envW with reads := [.ok "R", .readErr .temporary,
        .readErr .timeout] } reqW ((2 : Nat) : Int)).1 =
      (Do { envW with reads := [.ok "R", .readErr .timeout] } reqW
        ((2 : Nat) : Int)).1 ∧
     Event.sleepMs 10 ∈
      (Do { envW with reads := [.ok "R", .readErr .temporary,
        .readErr .timeout] } reqW ((2 : Nat) : Int)).2) ∧
    (Do { envW with reads := [.ok "R", .readErr (.other 3),
        .readErr .timeout] } reqW ((2 : Nat) : Int)).1 =
      .fail (.readErr 3) :=
  C6_temporary_retry_fatal_abort envW reqW ((2 : Nat) : Int) 3
    [.ok "R"] [.readErr .timeout] rfl rfl rfl (fun m => rfl) (by decide)

/-- Witness for C7: the second send attempt fails at the transport layer,
aborting the call before any read. -/
theorem C7_send_failure_fatal_witness :
    (∀ c, envF.sendOracle 1 = .writeErr c →
      (Do envF reqW (2 : Int)).1 = .fail (.writeToErr c) ∧
      Event.readAttempt ∉ (Do envF reqW (2 : Int)).2) ∧
    (∀ n, envF.sendOracle 1 = .wrote n → n < (encodeRequest reqW).length →
      (Do envF reqW (2 : Int)).1 =
        .fail (.shortWrite n (encodeRequest reqW).length) ∧
      Event.readAttempt ∉ (Do envF reqW (2 : Int)).2) :=
  C7_send_failure_fatal envF reqW 2 1 rfl rfl rfl (by decide) (by decide)

/-- Witness for C8: an unresolvable host fails the call with no send. -/
theorem C8_resolve_failure_first_witness :
    (Do { envW with resolveOk := false } reqW (2 : Int)).1 =
        .fail .resolveErr ∧
    sendEvents (Do { envW with resolveOk := false } reqW (2 : Int)).2 = [] :=
  C8_resolve_failure_first { envW with resolveOk := false } reqW 2 rfl

/-- Witness for the amended C9: two rounds give two 5ms pauses, the last
one between the final round and collection. -/
theorem C9_amended_pause_after_every_round_witness :
    pauseCount (Do envW reqW ((2 : Nat) : Int)).2 = 2 ∧
    ∃ l1 l2, (Do envW reqW ((2 : Nat) : Int)).2 =
        l1 ++ Event.sleepMs 5 :: l2 ∧
      sendEvents l2 = [] ∧ pauseCount l2 = 0 :=
  C9_amended_pause_after_every_round envW reqW 2 rfl rfl rfl (by decide)
    (fun m => rfl)

/-- Witness for C10: a negative send count sends nothing but still sets
the deadline and collects until the timeout. -/
theorem C10_nonpositive_numSends_witness :
    sendEvents (Do { envW with reads := [.readErr .timeout] } reqW
        (-3 : Int)).2 = [] ∧
    Event.setDeadline ∈ (Do { envW with reads := [.readErr .timeout] }
        reqW (-3 : Int)).2 ∧
    (Do { envW with reads := [.readErr .timeout] } reqW (-3 : Int)).1 =
      .ok (parsedOf envW.parse []) :=
  C10_nonpositive_numSends { envW with reads := [.readErr .timeout] } reqW
    (-3 : Int) [] [] rfl rfl rfl (fun m => rfl) (by decide) (by decide) rfl

end Httpu
